import Mathlib

/-!
Verification of the alchemical hydration-free-energy notebooks
(`02-decouple-LJ-bulk.ipynb`, `03-annihilate-Elec-bulk.ipynb`,
`example-ray/01-create_openmm_system.ipynb`).

The OpenMM objects the notebooks manipulate are shallowly embedded:
a `NonbondedForce` is a record of per-particle parameters, exception
parameters, cutoff settings and (for the electrostatics notebook)
parameter offsets; the notebooks' force-construction functions
(`add_LJ_scaling`, `turn_off_nonbonded`, `add_lambda_elec`,
`create_custom_LJ`) become functions on these records.  Custom energy
expressions are transcribed into real-valued functions; machine floats
are modelled by exact reals.  The Python indexing `[... ][0]` used to
locate the base nonbonded force is fallible and is modelled with
`Option`.
-/

namespace HFE

/-- Per-particle parameters of an OpenMM `NonbondedForce`
(`getParticleParameters` returns charge, sigma, epsilon). -/
structure ParticleParams where
  charge : ℝ
  sigma : ℝ
  epsilon : ℝ
  deriving Inhabited

/-- Exception parameters of an OpenMM `NonbondedForce`
(`getExceptionParameters` returns the two atom indices, chargeprod,
sigma, epsilon). -/
structure ExceptionParams where
  i : ℕ
  j : ℕ
  chargeprod : ℝ
  sigma : ℝ
  epsilon : ℝ
  deriving Inhabited

/-- A per-particle parameter offset registered by
`addParticleParameterOffset(parameter, particleIndex, chargeScale,
sigmaScale, epsilonScale)`. -/
structure ParticleOffset where
  parameter : String
  particle : ℕ
  chargeScale : ℝ
  sigmaScale : ℝ
  epsilonScale : ℝ
  deriving Inhabited

/-- A per-exception parameter offset registered by
`addExceptionParameterOffset(parameter, exceptionIndex,
chargeprodScale, sigmaScale, epsilonScale)`. -/
structure ExceptionOffset where
  parameter : String
  exception : ℕ
  chargeprodScale : ℝ
  sigmaScale : ℝ
  epsilonScale : ℝ
  deriving Inhabited

/-- The base `NonbondedForce` of the OpenMM system, with the fields the
notebooks read or write. -/
structure NonbondedForce where
  particles : List ParticleParams
  exceptions : List ExceptionParams
  cutoffDistance : ℝ
  useDispersionCorrection : Bool
  globalParameters : List (String × ℝ) := []
  particleOffsets : List ParticleOffset := []
  exceptionOffsets : List ExceptionOffset := []

/-- The softcore global parameter `softcore_a`, registered by
`add_LJ_scaling` with `addGlobalParameter("softcore_a", 1)`. -/
def softcore_a : ℝ := 1

/-- The softcore global parameter `softcore_b` (value 1). -/
def softcore_b : ℝ := 1

/-- The softcore global parameter `softcore_c` (value 6). -/
def softcore_c : ℝ := 6

/-- The softcore global parameter `softcore_alpha` (value 0.5). -/
def softcore_alpha : ℝ := 0.5

/-- The soft-core energy expression string passed to
`CustomNonbondedForce` in `add_LJ_scaling`:
`(lambda_sterics^softcore_a)*4*epsilon*x*(x-1.0);`
`x=(sigma/reff_sterics)^6;`
`reff_sterics=sigma*((softcore_alpha*(1.0-lambda_sterics)^softcore_b+(r/sigma)^softcore_c))^(1/softcore_c)`.
Exponentiation in OpenMM expressions is real exponentiation; it is
modelled by `Real.rpow`.  The expression is evaluated on the combined
per-pair `sigma` and `epsilon` (the combination rules are the last two
lines of the expression string and appear in `mixSigma`/`mixEps`). -/
noncomputable def softcoreExpression (lambda_sterics sigma epsilon r : ℝ) : ℝ :=
  let reff_sterics :=
    sigma * (softcore_alpha * (1 - lambda_sterics) ^ softcore_b
      + (r / sigma) ^ softcore_c) ^ (1 / softcore_c)
  let x := (sigma / reff_sterics) ^ (6 : ℝ)
  lambda_sterics ^ softcore_a * 4 * epsilon * x * (x - 1)

/-- The Lennard-Jones form `4*epsilon*((sigma/r)^12 - (sigma/r)^6)`.
This is at once the expression string of the intramolecular
`CustomBondForce`, the expression string of the `CustomNonbondedForce`
built by `create_custom_LJ`, and the Lennard-Jones part of the pair
energy computed internally by OpenMM's `NonbondedForce`. -/
noncomputable def LJ (sigma epsilon r : ℝ) : ℝ :=
  4 * epsilon * ((sigma / r) ^ (12 : ℕ) - (sigma / r) ^ (6 : ℕ))

/-- Lorentz combination rule `sigma=0.5*(sigma1+sigma2)` (used both in
the custom expression strings and internally by `NonbondedForce`). -/
noncomputable def mixSigma (sigma1 sigma2 : ℝ) : ℝ := 0.5 * (sigma1 + sigma2)

/-- Berthelot combination rule `epsilon=sqrt(epsilon1*epsilon2)`. -/
noncomputable def mixEps (epsilon1 epsilon2 : ℝ) : ℝ :=
  Real.sqrt (epsilon1 * epsilon2)

/-- The `CustomNonbondedForce` objects built by the notebooks.  The
energy expression is carried as a function of the context value of the
global `lambda_sterics` parameter and of the combined pair parameters;
`lambda_sterics` records the initial value given to
`addGlobalParameter`. -/
structure CustomNonbondedForce where
  energyExpression : ℝ → ℝ → ℝ → ℝ → ℝ
  lambda_sterics : ℝ
  perParticle : List (ℝ × ℝ)
  cutoffDistance : ℝ
  useLongRangeCorrection : Bool
  interactionGroup : List ℕ × List ℕ
  exclusions : List (ℕ × ℕ)
  forceGroup : ℕ

/-- The `CustomBondForce` objects built by the notebooks: a list of
bonds `(atom_i, atom_j, sigma, epsilon)` with the fixed LJ expression. -/
structure CustomBondForce where
  bonds : List (ℕ × ℕ × ℝ × ℝ)
  forceGroup : ℕ

/-- A force of the OpenMM system, as far as the notebooks distinguish
them.  `otherForce` stands for forces the notebooks never inspect
(bonded terms, the barostat, ...). -/
inductive Force where
  | nonbonded : NonbondedForce → Force
  | customNB : CustomNonbondedForce → Force
  | customBond : CustomBondForce → Force
  | otherForce : Force

/-- The OpenMM `System`: its list of forces. -/
structure System where
  forces : List Force

/-- `isinstance(force, NonbondedForce)`, as a projection. -/
def nbProj : Force → Option NonbondedForce
  | Force.nonbonded nb => some nb
  | _ => none

/-- `[force for force in system.getForces() if isinstance(force, NonbondedForce)]`. -/
def nonbondedForces (system : System) : List NonbondedForce :=
  system.forces.filterMap nbProj

/-- Replace the first `NonbondedForce` of the force list by the image
under `g`; `none` when there is none (the Python `[...][0]` indexing
raises there). -/
def mapFirstNB (g : NonbondedForce → NonbondedForce) : List Force → Option (List Force)
  | [] => none
  | Force.nonbonded nb :: rest => some (Force.nonbonded (g nb) :: rest)
  | f :: rest => (mapFirstNB g rest).map (f :: ·)

/-- System-level version of `mapFirstNB`. -/
def mapFirstNonbonded (system : System) (g : NonbondedForce → NonbondedForce) : Option System :=
  (mapFirstNB g system.forces).map System.mk

/-- The intermolecular soft-core `CustomNonbondedForce` constructed by
`add_LJ_scaling` (02-decouple-LJ-bulk.ipynb): softcore expression and
global parameters, per-particle `[sigma, epsilon]` copied from the base
force, cutoff distance and long-range-correction flag copied from the
base force, one exclusion per base-force exception, interaction group
`(molecule, solvent)`, force group `force_group_1` (default 6). -/
noncomputable def intermol_LJ (nonbonded : NonbondedForce) (molecule solvent : List ℕ)
    (lambda_value : ℝ) : CustomNonbondedForce where
  energyExpression := softcoreExpression
  lambda_sterics := lambda_value
  perParticle := nonbonded.particles.map fun p => (p.sigma, p.epsilon)
  cutoffDistance := nonbonded.cutoffDistance
  useLongRangeCorrection := nonbonded.useDispersionCorrection
  interactionGroup := (molecule, solvent)
  exclusions := nonbonded.exceptions.map fun e => (e.i, e.j)
  forceGroup := 6

/-- The intramolecular `CustomBondForce` constructed by both
`add_LJ_scaling` and `create_custom_LJ`: one bond `(atom_i, atom_j,
[sigma, epsilon])` for every base-force exception whose two atoms both
belong to `molecule`, force group `force_group_2`. -/
def intramol_LJ (nonbonded : NonbondedForce) (molecule : List ℕ) : CustomBondForce where
  bonds :=
    (nonbonded.exceptions.filter fun e =>
        decide (e.i ∈ molecule) && decide (e.j ∈ molecule)).map
      fun e => (e.i, e.j, e.sigma, e.epsilon)
  forceGroup := 5

/-- `add_LJ_scaling(system, molecule, solvent, lambda_value, ...)`
from 02-decouple-LJ-bulk.ipynb: locate the base `NonbondedForce` (the
`[...][0]` indexing fails when there is none), build the soft-core
intermolecular `CustomNonbondedForce` and the intramolecular
`CustomBondForce`, and add both to the system. -/
noncomputable def add_LJ_scaling (system : System) (molecule solvent : List ℕ)
    (lambda_value : ℝ) : Option System :=
  match (nonbondedForces system).head? with
  | none => none
  | some nonbonded =>
      some ⟨system.forces ++
        [Force.customNB (intermol_LJ nonbonded molecule solvent lambda_value),
         Force.customBond (intramol_LJ nonbonded molecule)]⟩

/-- The plain-LJ intermolecular `CustomNonbondedForce` constructed by
`create_custom_LJ` (03-annihilate-Elec-bulk.ipynb): expression
`4*epsilon*((sigma/r)^12 - (sigma/r)^6)` with no global parameter (the
context `lambda` argument is ignored), per-particle parameters, cutoff,
long-range-correction flag, exclusions and interaction group exactly as
in `intermol_LJ`, force group `force_group_1` (default 5). -/
noncomputable def create_custom_LJ_intermol (nonbonded : NonbondedForce)
    (molecule solvent : List ℕ) : CustomNonbondedForce where
  energyExpression := fun _ sigma epsilon r => LJ sigma epsilon r
  lambda_sterics := 0
  perParticle := nonbonded.particles.map fun p => (p.sigma, p.epsilon)
  cutoffDistance := nonbonded.cutoffDistance
  useLongRangeCorrection := nonbonded.useDispersionCorrection
  interactionGroup := (molecule, solvent)
  exclusions := nonbonded.exceptions.map fun e => (e.i, e.j)
  forceGroup := 5

/-- `create_custom_LJ(system, molecule, solvent, ...)` from
03-annihilate-Elec-bulk.ipynb. -/
noncomputable def create_custom_LJ (system : System) (molecule solvent : List ℕ) : Option System :=
  match (nonbondedForces system).head? with
  | none => none
  | some nonbonded =>
      some ⟨system.forces ++
        [Force.customNB (create_custom_LJ_intermol nonbonded molecule solvent),
         Force.customBond (intramol_LJ nonbonded molecule)]⟩

/-- Indexed map: `mapWithIndex f n [a, b, ...] = [f n a, f (n+1) b, ...]`.
Used to model in-place `set...Parameters(index, ...)` loops, which touch
each index at most once. -/
def mapWithIndex {α : Type} (f : ℕ → α → α) : ℕ → List α → List α
  | _, [] => []
  | n, a :: as => f n a :: mapWithIndex f (n + 1) as

/-- The body of `turn_off_nonbonded` on the located base force: every
particle of `molecule` gets `setParticleParameters(atom_i, 0.0, sigma,
0.0)` (charge and epsilon zeroed, sigma kept), and every exception with
both atoms in `molecule` gets `setExceptionParameters(exception_i,
atom_i, atom_j, 0.0, sigma, 0.0)`. -/
def turn_off_nonbonded_nb (nonbonded : NonbondedForce) (molecule : List ℕ) : NonbondedForce :=
  { nonbonded with
    particles := mapWithIndex
      (fun atom_i p =>
        if atom_i ∈ molecule then { p with charge := 0, epsilon := 0 } else p)
      0 nonbonded.particles
    exceptions := nonbonded.exceptions.map fun e =>
      if e.i ∈ molecule ∧ e.j ∈ molecule then { e with chargeprod := 0, epsilon := 0 }
      else e }

/-- `turn_off_nonbonded(system, molecule)` (identical in both bulk
notebooks): apply `turn_off_nonbonded_nb` to the first
`NonbondedForce`. -/
def turn_off_nonbonded (system : System) (molecule : List ℕ) : Option System :=
  mapFirstNonbonded system (fun nb => turn_off_nonbonded_nb nb molecule)

/-- The exception-offset loop of `add_lambda_elec`: iterate
`exception_i` over the exception indices (starting from `exception_i0`)
and register `addExceptionParameterOffset("lambda_electrostatics",
exception_i, charge, 0.0, 0.0)` for every exception with both atoms in
`molecule`, where `charge` is the exception's current chargeprod. -/
def elecExceptionOffsets (molecule : List ℕ) :
    ℕ → List ExceptionParams → List ExceptionOffset
  | _, [] => []
  | exception_i, e :: rest =>
      if e.i ∈ molecule ∧ e.j ∈ molecule then
        ⟨"lambda_electrostatics", exception_i, e.chargeprod, 0, 0⟩ ::
          elecExceptionOffsets molecule (exception_i + 1) rest
      else elecExceptionOffsets molecule (exception_i + 1) rest

/-- The body of `add_lambda_elec` (03-annihilate-Elec-bulk.ipynb) on
the located base force: `addGlobalParameter("lambda_electrostatics",
lambda_value)`; then for every `atom_i` of `molecule`,
`addParticleParameterOffset("lambda_electrostatics", atom_i, charge,
0.0, 0.0)` with `charge` the atom's current charge; then the exception
offsets of `elecExceptionOffsets`. -/
def add_lambda_elec_nb (nonbonded : NonbondedForce) (molecule : List ℕ)
    (lambda_value : ℝ) : NonbondedForce :=
  { nonbonded with
    globalParameters :=
      nonbonded.globalParameters ++ [("lambda_electrostatics", lambda_value)]
    particleOffsets :=
      nonbonded.particleOffsets ++ molecule.map (fun atom_i =>
        ⟨"lambda_electrostatics", atom_i,
          ((nonbonded.particles.getD atom_i default).charge), 0, 0⟩)
    exceptionOffsets :=
      nonbonded.exceptionOffsets ++ elecExceptionOffsets molecule 0 nonbonded.exceptions }

/-- `add_lambda_elec(system, molecule, lambda_value)`: apply
`add_lambda_elec_nb` to the first `NonbondedForce` of the system. -/
def add_lambda_elec (system : System) (molecule : List ℕ) (lambda_value : ℝ) :
    Option System :=
  mapFirstNonbonded system (fun nb => add_lambda_elec_nb nb molecule lambda_value)

/-! ### Energy semantics

A configuration is summarised by its pair-distance function
`d : ℕ → ℕ → ℝ`.  The embedding evaluates every pair (the cutoff
truncation common to the base force and its replacement does not enter
the claims). -/

/-- Whether the (unordered) pair `(i, j)` occurs in an exclusion /
exception pair list. -/
def pairListed (pairs : List (ℕ × ℕ)) (i j : ℕ) : Bool :=
  pairs.any fun q => (q.1 == i && q.2 == j) || (q.1 == j && q.2 == i)

/-- All index pairs `(i, j)` with `i < j < n`. -/
def allPairs (n : ℕ) : List (ℕ × ℕ) :=
  (List.range n).flatMap fun i =>
    ((List.range n).filter fun j => i < j).map fun j => (i, j)

/-- `sigma` of particle `i` of the base force. -/
def sigmaAt (nonbonded : NonbondedForce) (i : ℕ) : ℝ :=
  (nonbonded.particles.getD i default).sigma

/-- `epsilon` of particle `i` of the base force. -/
def epsAt (nonbonded : NonbondedForce) (i : ℕ) : ℝ :=
  (nonbonded.particles.getD i default).epsilon

/-- `charge` of particle `i` of the base force. -/
def chargeAt (nonbonded : NonbondedForce) (i : ℕ) : ℝ :=
  (nonbonded.particles.getD i default).charge

/-- The Lennard-Jones energy computed by a `NonbondedForce`: the
combined-parameter LJ term over all non-excepted particle pairs, plus
the exception LJ terms with their own `sigma`/`epsilon`. -/
noncomputable def nbLJEnergy (nonbonded : NonbondedForce) (d : ℕ → ℕ → ℝ) : ℝ :=
  ((allPairs nonbonded.particles.length).map fun p =>
      if pairListed (nonbonded.exceptions.map fun e => (e.i, e.j)) p.1 p.2 then 0
      else LJ (mixSigma (sigmaAt nonbonded p.1) (sigmaAt nonbonded p.2))
        (mixEps (epsAt nonbonded p.1) (epsAt nonbonded p.2)) (d p.1 p.2)).sum
  + (nonbonded.exceptions.map fun e => LJ e.sigma e.epsilon (d e.i e.j)).sum

/-- `sigma` of particle `i` of a custom nonbonded force. -/
def ppSigma (f : CustomNonbondedForce) (i : ℕ) : ℝ := (f.perParticle.getD i (0, 0)).1

/-- `epsilon` of particle `i` of a custom nonbonded force. -/
def ppEps (f : CustomNonbondedForce) (i : ℕ) : ℝ := (f.perParticle.getD i (0, 0)).2

/-- The energy of a `CustomNonbondedForce` when the context value of
`lambda_sterics` is `lam`: the energy expression on combined
parameters, summed over the non-excluded pairs of the interaction
group.  (The notebooks' interaction groups are a molecule set and a
disjoint solvent set, so each interacting pair appears exactly once in
the product.) -/
noncomputable def customNBEnergy (f : CustomNonbondedForce) (lam : ℝ) (d : ℕ → ℕ → ℝ) : ℝ :=
  ((f.interactionGroup.1.product f.interactionGroup.2).map fun p =>
      if pairListed f.exclusions p.1 p.2 then 0
      else f.energyExpression lam (mixSigma (ppSigma f p.1) (ppSigma f p.2))
        (mixEps (ppEps f p.1) (ppEps f p.2)) (d p.1 p.2)).sum

/-- The energy of a `CustomBondForce` with the LJ expression: each bond
contributes `4*epsilon*((sigma/r)^12 - (sigma/r)^6)` at its own
distance, unconditionally (bonded terms ignore cutoffs and
exclusions). -/
noncomputable def customBondEnergy (f : CustomBondForce) (d : ℕ → ℕ → ℝ) : ℝ :=
  (f.bonds.map fun b => LJ b.2.2.1 b.2.2.2 (d b.1 b.2.1)).sum

/-- The part of the original `NonbondedForce` Lennard-Jones energy that
`add_LJ_scaling` migrates into custom forces: the combined-parameter LJ
terms of the non-excepted molecule-solvent pairs, plus the exception LJ
terms of the molecule-molecule exceptions.  (Solvent-solvent terms stay
in the base force; non-excepted molecule-molecule pairs and
molecule-solvent exceptions are migrated nowhere.) -/
noncomputable def migratedLJEnergy (nonbonded : NonbondedForce)
    (molecule solvent : List ℕ) (d : ℕ → ℕ → ℝ) : ℝ :=
  ((molecule.product solvent).map fun p =>
      if pairListed (nonbonded.exceptions.map fun e => (e.i, e.j)) p.1 p.2 then 0
      else LJ (mixSigma (sigmaAt nonbonded p.1) (sigmaAt nonbonded p.2))
        (mixEps (epsAt nonbonded p.1) (epsAt nonbonded p.2)) (d p.1 p.2)).sum
  + ((nonbonded.exceptions.filter fun e =>
        decide (e.i ∈ molecule) && decide (e.j ∈ molecule)).map
      fun e => LJ e.sigma e.epsilon (d e.i e.j)).sum

/-- The effective charge of particle `i` of a `NonbondedForce` when the
context value of `lambda_electrostatics` is `lam`: the base charge plus
`lam` times each registered charge-scale offset on that particle. -/
noncomputable def effectiveCharge (nonbonded : NonbondedForce) (lam : ℝ) (i : ℕ) : ℝ :=
  chargeAt nonbonded i +
    ((nonbonded.particleOffsets.filter fun o =>
        o.particle == i && o.parameter == "lambda_electrostatics").map
      fun o => lam * o.chargeScale).sum

/-- The effective chargeprod of exception `k` of a `NonbondedForce`
when the context value of `lambda_electrostatics` is `lam`. -/
noncomputable def effectiveChargeprod (nonbonded : NonbondedForce) (lam : ℝ) (k : ℕ) : ℝ :=
  (nonbonded.exceptions.getD k default).chargeprod +
    ((nonbonded.exceptionOffsets.filter fun o =>
        o.exception == k && o.parameter == "lambda_electrostatics").map
      fun o => lam * o.chargeprodScale).sum

/-! ### The alchemical production loop

The simulation context is a microstate (positions, velocities, box,
integrator random-number state — abstracted to a type `M`) together
with the current value of the alchemical control parameter.  One
integration step is an arbitrary function `stepDyn : M → ℝ → M` of the
microstate and the current parameter value, and the potential energy is
an arbitrary pure function `energyFn : M → ℝ → ℝ` of microstate and
parameter value (`context.getState(getEnergy=True)` does not modify the
context). -/

/-- A simulation context: microstate plus current control-parameter
value. -/
structure Context (M : Type) where
  micro : M
  param : ℝ

/-- `simulation.context.setParameter(name, v)`: overwrite the control
parameter, leaving the microstate untouched. -/
def setParameter {M : Type} (ctx : Context M) (v : ℝ) : Context M :=
  { ctx with param := v }

/-- `simulation.step(nsteps)`: advance the microstate by `nsteps`
integration steps under the current control-parameter value. -/
def stepSim {M : Type} (stepDyn : M → ℝ → M) (nsteps : ℕ) (ctx : Context M) : Context M :=
  { ctx with micro := (fun s => stepDyn s ctx.param)^[nsteps] ctx.micro }

/-- `simulation.context.getState(getEnergy=True).getPotentialEnergy()`:
a pure read of the context. -/
def getPotentialEnergy {M : Type} (energyFn : M → ℝ → ℝ) (ctx : Context M) : ℝ :=
  energyFn ctx.micro ctx.param

/-- The inner evaluation loop of the production cell:
`for l, lb2 in enumerate(lambda_values): setParameter(lb2);`
`u[k,l,n] = getPotentialEnergy() / kT`.  Returns the recorded row
(indexed by `l`) and the context after the loop. -/
noncomputable def runInner {M : Type} (energyFn : M → ℝ → ℝ) (kT : ℝ) :
    List ℝ → Context M → List ℝ × Context M
  | [], ctx => ([], ctx)
  | lb2 :: rest, ctx =>
      let c1 := setParameter ctx lb2
      let tail := runInner energyFn kT rest c1
      (getPotentialEnergy energyFn c1 / kT :: tail.1, tail.2)

/-- The production loop at a fixed schedule point `lb1`:
`for n in range(total_iterations): setParameter(lb1); step(output_freq);`
then the inner evaluation loop.  Returns the rows indexed by `n` and
the final context. -/
noncomputable def runProd {M : Type} (stepDyn : M → ℝ → M) (energyFn : M → ℝ → ℝ) (kT : ℝ)
    (lambda_values : List ℝ) (lb1 : ℝ) (output_freq : ℕ) :
    ℕ → Context M → List (List ℝ) × Context M
  | 0, ctx => ([], ctx)
  | n + 1, ctx =>
      let c2 := stepSim stepDyn output_freq (setParameter ctx lb1)
      let inner := runInner energyFn kT lambda_values c2
      let rest := runProd stepDyn energyFn kT lambda_values lb1 output_freq n inner.2
      (inner.1 :: rest.1, rest.2)

/-- The outer alchemical loop (cells 7b39ae10 / f260b2af):
`for k, lb1 in enumerate(lambda_values): setParameter(lb1);`
`step(equil_steps);` then `total_iterations` production blocks.  The
first list argument is the full schedule used by the inner evaluation
loop; the second is the sublist still to be simulated.  Returns
`u[k][n][l]` and the final context. -/
noncomputable def runAlchemical {M : Type} (stepDyn : M → ℝ → M) (energyFn : M → ℝ → ℝ) (kT : ℝ)
    (lambda_values : List ℝ) (equil_steps output_freq total_iterations : ℕ) :
    List ℝ → Context M → List (List (List ℝ)) × Context M
  | [], ctx => ([], ctx)
  | lb1 :: rest, ctx =>
      let c2 := stepSim stepDyn equil_steps (setParameter ctx lb1)
      let prodRes :=
        runProd stepDyn energyFn kT lambda_values lb1 output_freq total_iterations c2
      let tail :=
        runAlchemical stepDyn energyFn kT lambda_values equil_steps output_freq
          total_iterations rest prodRes.2
      (prodRes.1 :: tail.1, tail.2)

/-- The microstate after `n` production blocks of `output_freq` steps
under parameter value `lb1`, starting from `m` (a function of the
dynamics alone, with no reference to energy evaluation). -/
def blockState {M : Type} (stepDyn : M → ℝ → M) (lb1 : ℝ) (output_freq : ℕ)
    (m : M) : ℕ → M
  | 0 => m
  | n + 1 => (fun s => stepDyn s lb1)^[output_freq] (blockState stepDyn lb1 output_freq m n)

/-- The microstate after completing the lambda blocks of `todo`
(equilibration plus all production blocks at each schedule point),
starting from `m`. -/
def refLoop {M : Type} (stepDyn : M → ℝ → M)
    (equil_steps output_freq total_iterations : ℕ) : List ℝ → M → M
  | [], m => m
  | lb1 :: rest, m =>
      refLoop stepDyn equil_steps output_freq total_iterations rest
        (blockState stepDyn lb1 output_freq
          ((fun s => stepDyn s lb1)^[equil_steps] m) total_iterations)

/-- The microstate on which row `u[k, ·, n]` is recorded: complete the
first `k` schedule points, re-equilibrate under `lambda_values[k]`,
then run `n + 1` production blocks under `lambda_values[k]`. -/
def refSample {M : Type} (stepDyn : M → ℝ → M)
    (equil_steps output_freq total_iterations : ℕ) (lambda_values : List ℝ)
    (m0 : M) (k n : ℕ) : M :=
  let lb1 := lambda_values.getD k 0
  blockState stepDyn lb1 output_freq
    ((fun s => stepDyn s lb1)^[equil_steps]
      (refLoop stepDyn equil_steps output_freq total_iterations
        (lambda_values.take k) m0)) (n + 1)

/-! ### Decorrelation (pymbar timeseries)

`detectEquilibration` and `subsampleCorrelatedData` belong to the
external `pymbar.timeseries` module.  `detectEquilibration` is kept
abstract (an arbitrary function returning the equilibration sample
count, the statistical inefficiency and the effective sample count);
`subsampleCorrelatedData` with an explicit `g` is modelled after its
documented behaviour: starting from the beginning of the array it is
given, retain `t_n = round(n*g)` for `n = 0, 1, ...` while `t_n` is in
range, skipping duplicates.  `g` is a statistical inefficiency, which
pymbar clamps to at least 1; with `g ≥ 1` the index `t_n` reaches the
end of the array after at most `length` rounds, so the iteration is cut
at that fuel. -/

/-- `int(round(q))` on a nonnegative rational, rounding half up (the
tie-breaking convention does not affect any property proved here). -/
def qRound (q : ℚ) : ℕ := (⌊q + 1/2⌋).toNat

/-- Tail of the duplicate-skipping collection: keep `b` only when it
differs from the previously kept index `prev`. -/
def dedupAfter (prev : ℕ) : List ℕ → List ℕ
  | [] => []
  | b :: rest => if b = prev then dedupAfter prev rest else b :: dedupAfter b rest

/-- Skip an element that repeats its immediate predecessor (pymbar
appends `t` only when it differs from the last appended index). -/
def dedupConsec : List ℕ → List ℕ
  | [] => []
  | a :: rest => a :: dedupAfter a rest

/-- `timeseries.subsampleCorrelatedData(A_t, g=g)`: indices
`round(n*g)` while below `len(A_t)`, duplicates skipped.  Only the
length of `A_t` enters. -/
def subsampleCorrelatedData (A_t : List ℝ) (g : ℚ) : List ℕ :=
  dedupConsec ((((List.range A_t.length).map fun n : ℕ => qRound ((n : ℚ) * g)).takeWhile
    fun t => t < A_t.length))

/-- One state's turn of the decorrelation cell (5be460c2 / 305625dd):
`[nequil, g, Neff_max] = timeseries.detectEquilibration(u_kln[k,k,:])`,
`indices = timeseries.subsampleCorrelatedData(u_kln[k,k,:], g=g)`,
`N_k[k] = len(indices)`,
`u_kln[k,:,0:N_k[k]] = u_kln[k,:,indices].T`.
`uRow` is row `k` of the matrix, as the list over evaluation states `l`
of the time series `u[k,l,:]`; `k` the state index.  Note the full
diagonal series is handed to `subsampleCorrelatedData`; `nequil` and
`Neff_max` are bound but never used.  Returns `N_k[k]`, `indices`, and
the row after the in-place compaction (each series keeps its tail
beyond the assigned slice). -/
def decorrelateState (detect : List ℝ → ℕ × ℚ × ℝ) (uRow : List (List ℝ)) (k : ℕ) :
    ℕ × List ℕ × List (List ℝ) :=
  let series := uRow.getD k []
  let nequil := (detect series).1
  let g := (detect series).2.1
  let indices := subsampleCorrelatedData series g
  let N := indices.length
  (N, indices, uRow.map fun rowl =>
    (indices.map fun t => rowl.getD t 0) ++ rowl.drop N)

/-! ### Notebook-level environments

For the error-handling claims, a notebook cell is modelled on the
Python name environment: the force-field-selection cell of
`example-ray/01-create_openmm_system.ipynb` and the setup/input-loading
cells of `03-annihilate-Elec-bulk.ipynb`. -/

/-- The template generators the selection cell can construct. -/
inductive TemplateGenerator where
  | gaff : TemplateGenerator
  | smirnoff : String → TemplateGenerator

/-- An OpenMM `ForceField` as far as the selection cell is concerned:
the base XML file plus the registered template generators. -/
structure ForceField where
  baseFile : String
  registeredGenerators : List TemplateGenerator

/-- Python's `str.upper()` (character-wise uppercase). -/
def pyUpper (s : String) : String := ⟨s.data.map Char.toUpper⟩

/-- The branch of the selection cell (cell 20f7ddbc): case-insensitive
dispatch on `forcefield_name.upper()`; the unrecognised branch prints
`"Unknow force field, cannot preceed."` and binds no `template`.
Returns the printed lines and the optional `template` binding. -/
def forcefieldBranch (forcefield_name : String) :
    List String × Option TemplateGenerator :=
  if pyUpper forcefield_name = "GAFF" then ([], some TemplateGenerator.gaff)
  else if pyUpper forcefield_name = "SAGE" then
    ([], some (TemplateGenerator.smirnoff "openff-2.0.0.offxml"))
  else (["Unknow force field, cannot preceed."], none)

/-- The whole selection cell: build `ForceField("tip3p.xml")`, run the
branch, print `"Using force field: ..."`, then evaluate
`forcefield.registerTemplateGenerator(template.generator)` — which
raises a `NameError` when the branch bound no `template`.  Returns the
printed lines and either the force field with the generator registered
or the error. -/
def forcefield_selection_cell (forcefield_name : String) :
    List String × Except String ForceField :=
  let branch := forcefieldBranch forcefield_name
  let printed := branch.1 ++ ["Using force field: " ++ forcefield_name]
  match branch.2 with
  | some template =>
      (printed, Except.ok ⟨"tip3p.xml", [template]⟩)
  | none => (printed, Except.error "NameError: name template is not defined")

/-- The names bound by executing the cells of
`03-annihilate-Elec-bulk.ipynb` that precede the input-loading cell
(15cbc475), on a fresh kernel, in notebook order: the import cell, the
three function-definition cells, the setup cell (a1a01c9f, which binds
`builf_folder` — not `build_folder`) and the platform cell. -/
def elecNotebookEnv : List String :=
  ["os", "np", "plt", "MBAR", "timeseries", "simtk_unit",
   "AmberPrmtopFile", "AmberInpcrdFile", "Simulation", "HBonds", "PME",
   "DCDReporter", "StateDataReporter", "PDBFile",
   "XmlSerializer", "LangevinIntegrator", "MonteCarloBarostat",
   "CustomNonbondedForce", "CustomBondForce", "NonbondedForce", "Platform",
   "add_lambda_elec", "create_custom_LJ", "turn_off_nonbonded",
   "builf_folder", "work_folder", "platform"]

/-- Evaluate a Python name in an environment: a `NameError` when it is
unbound. -/
def lookupName (env : List String) (x : String) : Except String Unit :=
  if x ∈ env then Except.ok () else Except.error ("NameError: name " ++ x)

/-- The input-loading cell (15cbc475):
`prmtop = AmberPrmtopFile(f"{build_folder}/ethanol_tip3p.prmtop")` —
evaluating the f-string requires the name `build_folder`.  The cell
fails before constructing anything when that name is unbound. -/
def input_loading_cell (env : List String) : Except String (List String) := do
  let _ ← lookupName env "build_folder"
  let _ ← lookupName env "AmberPrmtopFile"
  let _ ← lookupName env "AmberInpcrdFile"
  Except.ok (env ++ ["prmtop", "inpcrd"])

/-! ### Spec-side formula and concrete fixtures -/

/-- The soft-core formula as written in the spec (transcribed from the
spec's words, to be compared with the source-transcribed
`softcoreExpression`): `E = lambda^a * 4*epsilon*x*(x-1)`,
`x = (sigma/r_eff)^6`,
`r_eff = sigma*(alpha*(1-lambda)^b + (r/sigma)^c)^(1/c)` with fixed
softcore exponents `a=1, b=1, c=6` and `alpha=0.5`. -/
noncomputable def softcoreSpecFormula (lam sigma epsilon r : ℝ) : ℝ :=
  let r_eff :=
    sigma * (0.5 * (1 - lam) ^ (1 : ℝ) + (r / sigma) ^ (6 : ℝ)) ^ (1 / (6 : ℝ))
  let x := (sigma / r_eff) ^ (6 : ℝ)
  lam ^ (1 : ℝ) * 4 * epsilon * x * (x - 1)

/-- A three-particle fixture (one solute atom `0`, two solvent atoms
`1, 2`), unit sigma and epsilon, zero charges, no exceptions. -/
noncomputable def nbTriple : NonbondedForce where
  particles := [⟨0, 1, 1⟩, ⟨0, 1, 1⟩, ⟨0, 1, 1⟩]
  exceptions := []
  cutoffDistance := 1
  useDispersionCorrection := true

/-- A two-particle fixture (solute atom `0`, solvent atom `1`). -/
noncomputable def nbPair : NonbondedForce where
  particles := [⟨0, 1, 1⟩, ⟨0, 1, 1⟩]
  exceptions := []
  cutoffDistance := 1
  useDispersionCorrection := true

/-- A two-particle fixture with charges 2 and 3 and one intramolecular
exception of chargeprod 6. -/
noncomputable def nbElec : NonbondedForce where
  particles := [⟨2, 1, 1⟩, ⟨3, 1, 1⟩]
  exceptions := [⟨0, 1, 6, 1, 1⟩]
  cutoffDistance := 1
  useDispersionCorrection := true

/-- A configuration in which every pair sits at distance 2. -/
noncomputable def dTwo : ℕ → ℕ → ℝ := fun _ _ => 2

/-- A system containing two `NonbondedForce` objects (a duplicated base
term). -/
noncomputable def sysDup : System where
  forces := [Force.nonbonded nbPair, Force.nonbonded nbTriple]

/-- A system containing no `NonbondedForce` at all. -/
def sysEmpty : System where
  forces := [Force.otherForce]

/-- Concrete dynamics for the production-loop fixture: the microstate
is a step counter. -/
def stepW : ℕ → ℝ → ℕ := fun m _ => m + 1

/-- Concrete pure energy function for the production-loop fixture. -/
noncomputable def energyW : ℕ → ℝ → ℝ := fun m lb => (m : ℝ) * lb

/-- Concrete outcome of the external `detectEquilibration` call for the
decorrelation fixtures: two burn-in samples, statistical inefficiency
1. -/
def detectW : List ℝ → ℕ × ℚ × ℝ := fun _ => (2, 1, 0)

/-- A length-4 diagonal time series for the decorrelation fixtures. -/
noncomputable def seriesW : List ℝ := [100, 100, 0, 0]

/-- A two-state row of the energy matrix for the decorrelation
fixtures. -/
noncomputable def uRowW : List (List ℝ) := [[100, 100, 0, 0], [5, 6, 7, 8]]

/-! ### Helper lemmas -/

lemma getD_map_of_lt {α β : Type} (f : α → β) (dα : α) (dβ : β) :
    ∀ (l : List α) (i : ℕ), i < l.length → (l.map f).getD i dβ = f (l.getD i dα)
  | a :: as, 0, _ => by simp
  | a :: as, i + 1, h => by
      rw [List.map_cons, List.getD_cons_succ, List.getD_cons_succ]
      exact getD_map_of_lt f dα dβ as i (by simpa using Nat.lt_of_succ_lt_succ h)

lemma getD_mapWithIndex {α : Type} (f : ℕ → α → α) (d : α) :
    ∀ (l : List α) (n i : ℕ), i < l.length →
      (mapWithIndex f n l).getD i d = f (n + i) (l.getD i d)
  | a :: as, n, 0, _ => by simp [mapWithIndex]
  | a :: as, n, i + 1, h => by
      rw [mapWithIndex, List.getD_cons_succ, List.getD_cons_succ,
        getD_mapWithIndex f d as (n + 1) i (Nat.lt_of_succ_lt_succ h)]
      congr 1
      omega

lemma getD_mem {α : Type} (l : List α) (i : ℕ) (d : α) (h : i < l.length) :
    l.getD i d ∈ l := by
  rw [List.getD_eq_getElem l d h]
  exact List.getElem_mem h

/-- At `lambda_sterics = 1` the soft-core expression reduces to the
plain Lennard-Jones form. -/
lemma softcoreExpression_lambda_one (sigma epsilon r : ℝ)
    (hs : 0 < sigma) (hr : 0 < r) :
    softcoreExpression 1 sigma epsilon r = LJ sigma epsilon r := by
  have hrs : (0 : ℝ) ≤ r / sigma := (div_pos hr hs).le
  have h6 : ((r / sigma) ^ (6 : ℝ)) ^ (1 / (6 : ℝ)) = r / sigma := by
    rw [← Real.rpow_mul hrs]
    norm_num
  have hx : (sigma / r) ^ (6 : ℝ) = (sigma / r) ^ (6 : ℕ) := by
    rw [← Real.rpow_natCast (sigma / r) 6]
    norm_num
  have hz : sigma * (0.5 * ((1 : ℝ) - 1) + (r / sigma) ^ (6 : ℝ)) ^ (1 / (6 : ℝ)) = r := by
    have hin : (0.5 * ((1 : ℝ) - 1) + (r / sigma) ^ (6 : ℝ)) = (r / sigma) ^ (6 : ℝ) := by
      ring
    rw [hin, h6, mul_comm, div_mul_cancel₀ r hs.ne']
  simp only [softcoreExpression, softcore_a, softcore_b, softcore_c, softcore_alpha,
    LJ, Real.rpow_one, Real.one_rpow]
  rw [hz, hx]
  ring

/-! ### C3 -/

/-- C3: the soft-core intermolecular energy expression registered by
`add_LJ_scaling` is exactly
`E = lambda^a * 4*epsilon*x*(x-1)`, `x = (sigma/r_eff)^6`,
`r_eff = sigma*(alpha*(1-lambda)^b + (r/sigma)^c)^(1/c)` with the
global parameters `a=1, b=1, c=6, alpha=0.5`; consequently for every
pair and every separation `r > 0` it evaluates to exactly zero at
`lambda_sterics = 0`. -/
theorem softcore_expression_exact :
    (∀ lam sigma epsilon r : ℝ,
        softcoreExpression lam sigma epsilon r = softcoreSpecFormula lam sigma epsilon r) ∧
    (∀ sigma epsilon r : ℝ, 0 < r → softcoreExpression 0 sigma epsilon r = 0) := by
  constructor
  · intro lam sigma epsilon r
    simp only [softcoreExpression, softcoreSpecFormula, softcore_a, softcore_b,
      softcore_c, softcore_alpha]
  · intro sigma epsilon r _
    simp only [softcoreExpression, softcore_a, Real.rpow_one]
    ring

theorem softcore_expression_exact_witness :
    softcoreExpression 0 1 1 2 = 0 :=
  softcore_expression_exact.2 1 1 2 (by norm_num)

/-! ### C7 -/

/-- C7: the replacement intermolecular `CustomNonbondedForce` built by
`add_LJ_scaling` (and likewise by `create_custom_LJ`) has the base
force's cutoff distance, its long-range correction flag equals the base
force's dispersion-correction flag, and it has one exclusion for every
exception of the base force, on the same atom pair. -/
theorem replacement_mirrors_base (nonbonded : NonbondedForce)
    (molecule solvent : List ℕ) (lam : ℝ) :
    ((intermol_LJ nonbonded molecule solvent lam).cutoffDistance =
        nonbonded.cutoffDistance ∧
      (intermol_LJ nonbonded molecule solvent lam).useLongRangeCorrection =
        nonbonded.useDispersionCorrection ∧
      (intermol_LJ nonbonded molecule solvent lam).exclusions =
        nonbonded.exceptions.map (fun e => (e.i, e.j)) ∧
      (intermol_LJ nonbonded molecule solvent lam).exclusions.length =
        nonbonded.exceptions.length) ∧
    ((create_custom_LJ_intermol nonbonded molecule solvent).cutoffDistance =
        nonbonded.cutoffDistance ∧
      (create_custom_LJ_intermol nonbonded molecule solvent).useLongRangeCorrection =
        nonbonded.useDispersionCorrection ∧
      (create_custom_LJ_intermol nonbonded molecule solvent).exclusions =
        nonbonded.exceptions.map (fun e => (e.i, e.j)) ∧
      (create_custom_LJ_intermol nonbonded molecule solvent).exclusions.length =
        nonbonded.exceptions.length) :=
  ⟨⟨rfl, rfl, rfl, by simp [intermol_LJ]⟩,
   ⟨rfl, rfl, rfl, by simp [create_custom_LJ_intermol]⟩⟩

/-! ### C10 -/

/-- C10: the setup cell of the electrostatics notebook binds
`builf_folder`, not `build_folder`; a fresh top-to-bottom execution
therefore reaches the input-loading cell with `build_folder` unbound
and fails there with a `NameError`, before any system is constructed. -/
theorem build_folder_typo_fails :
    "builf_folder" ∈ elecNotebookEnv ∧
    "build_folder" ∉ elecNotebookEnv ∧
    input_loading_cell elecNotebookEnv =
      Except.error "NameError: name build_folder" := by
  refine ⟨by decide, by decide, ?_⟩
  rfl

/-! ### C9 -/

/-- C9 counterexample: with the unrecognised force-field name
`"AMBER"`, the selection cell does not continue — evaluating
`forcefield.registerTemplateGenerator(template.generator)` in the very
same cell raises an unbound-name error. -/
theorem unknown_forcefield_cell_errors :
    (forcefield_selection_cell "AMBER").2 =
      Except.error "NameError: name template is not defined" := by
  have hg : pyUpper "AMBER" ≠ "GAFF" := by decide
  have hs : pyUpper "AMBER" ≠ "SAGE" := by decide
  simp only [forcefield_selection_cell, forcefieldBranch, if_neg hg, if_neg hs]

/-- C9 (amended): when the force-field name matches neither GAFF nor
SAGE case-insensitively, the selection branch itself raises nothing and
constructs no generator — it prints the warning
`"Unknow force field, cannot preceed."` — but the same cell then fails
at the template-registration line with an unbound-name error, so the
failure is not deferred to the later system-build step. -/
theorem unknown_forcefield_warns_then_errors (forcefield_name : String)
    (hg : pyUpper forcefield_name ≠ "GAFF")
    (hs : pyUpper forcefield_name ≠ "SAGE") :
    forcefield_selection_cell forcefield_name =
      (["Unknow force field, cannot preceed.",
        "Using force field: " ++ forcefield_name],
       Except.error "NameError: name template is not defined") := by
  simp only [forcefield_selection_cell, forcefieldBranch, if_neg hg, if_neg hs,
    List.singleton_append, List.cons_append, List.nil_append]

theorem unknown_forcefield_warns_then_errors_witness :
    forcefield_selection_cell "OPLS" =
      (["Unknow force field, cannot preceed.", "Using force field: OPLS"],
       Except.error "NameError: name template is not defined") :=
  unknown_forcefield_warns_then_errors "OPLS" (by decide) (by decide)

/-! ### C8 -/

lemma mapFirstNB_none_iff (g : NonbondedForce → NonbondedForce) :
    ∀ forces : List Force, mapFirstNB g forces = none ↔ forces.filterMap nbProj = []
  | [] => by simp [mapFirstNB]
  | Force.nonbonded nb :: rest => by
      simp [mapFirstNB, nbProj, List.filterMap_cons]
  | Force.customNB c :: rest => by
      simp [mapFirstNB, nbProj, List.filterMap_cons, Option.map_eq_none',
        mapFirstNB_none_iff g rest]
  | Force.customBond b :: rest => by
      simp [mapFirstNB, nbProj, List.filterMap_cons, Option.map_eq_none',
        mapFirstNB_none_iff g rest]
  | Force.otherForce :: rest => by
      simp [mapFirstNB, nbProj, List.filterMap_cons, Option.map_eq_none',
        mapFirstNB_none_iff g rest]

lemma mapFirstNonbonded_none_iff (system : System) (g : NonbondedForce → NonbondedForce) :
    mapFirstNonbonded system g = none ↔ nonbondedForces system = [] := by
  rw [mapFirstNonbonded, Option.map_eq_none', mapFirstNB_none_iff, nonbondedForces]

/-- C8 counterexample: on a system with two `NonbondedForce` objects
(the base term duplicated), `add_LJ_scaling` does not fail — there is
no assertion and no exception; it proceeds. -/
theorem duplicated_nonbonded_no_failure :
    add_LJ_scaling sysDup [0] [1] 1 ≠ none := by
  have h : (nonbondedForces sysDup).head? = some nbPair := rfl
  simp [add_LJ_scaling, h]

/-- C8 (amended): the force-construction operations contain no
assertion at all; the lookup of the base nonbonded term is a bare
first-element indexing, so they error (an `IndexError`, modelled by
`none`) exactly when no `NonbondedForce` is present, and when one is
duplicated they do not fail but silently proceed using the first
`NonbondedForce` of the system. -/
theorem nonbonded_lookup_no_assertion (system : System) (molecule solvent : List ℕ)
    (lam : ℝ) :
    (add_LJ_scaling system molecule solvent lam = none ↔ nonbondedForces system = []) ∧
    (create_custom_LJ system molecule solvent = none ↔ nonbondedForces system = []) ∧
    (turn_off_nonbonded system molecule = none ↔ nonbondedForces system = []) ∧
    (add_lambda_elec system molecule lam = none ↔ nonbondedForces system = []) ∧
    (∀ nb rest, nonbondedForces system = nb :: rest →
      add_LJ_scaling system molecule solvent lam =
        some ⟨system.forces ++
          [Force.customNB (intermol_LJ nb molecule solvent lam),
           Force.customBond (intramol_LJ nb molecule)]⟩) := by
  refine ⟨?_, ?_, ?_, ?_, ?_⟩
  · rw [← List.head?_eq_none_iff]
    cases h : (nonbondedForces system).head? <;> simp [add_LJ_scaling, h]
  · rw [← List.head?_eq_none_iff]
    cases h : (nonbondedForces system).head? <;> simp [create_custom_LJ, h]
  · exact mapFirstNonbonded_none_iff system _
  · exact mapFirstNonbonded_none_iff system _
  · intro nb rest h
    have hh : (nonbondedForces system).head? = some nb := by rw [h]; rfl
    simp [add_LJ_scaling, hh]

theorem nonbonded_lookup_no_assertion_witness :
    add_LJ_scaling sysDup [0] [1] 1 =
      some ⟨sysDup.forces ++
        [Force.customNB (intermol_LJ nbPair [0] [1] 1),
         Force.customBond (intramol_LJ nbPair [0])]⟩ :=
  (nonbonded_lookup_no_assertion sysDup [0] [1] 1).2.2.2.2 nbPair [nbTriple] rfl

/-! ### C5 and C6: decorrelation -/

lemma dedupAfter_subset : ∀ (l : List ℕ) (p x : ℕ), x ∈ dedupAfter p l → x ∈ l
  | [], _, _, h => by simp [dedupAfter] at h
  | b :: rest, p, x, h => by
      by_cases hb : b = p
      · rw [dedupAfter, if_pos hb] at h
        exact List.mem_cons_of_mem b (dedupAfter_subset rest p x h)
      · rw [dedupAfter, if_neg hb] at h
        rcases List.mem_cons.mp h with h | h
        · exact h ▸ List.mem_cons_self b rest
        · exact List.mem_cons_of_mem b (dedupAfter_subset rest b x h)

lemma dedupAfter_gt_pairwise :
    ∀ (l : List ℕ) (p : ℕ), (∀ x ∈ l, p ≤ x) → l.Pairwise (· ≤ ·) →
      (∀ x ∈ dedupAfter p l, p < x) ∧ (dedupAfter p l).Pairwise (· < ·)
  | [], p, _, _ => by simp [dedupAfter]
  | b :: rest, p, hp, hpw => by
      have hpb : p ≤ b := hp b (List.mem_cons_self b rest)
      have hrest : ∀ x ∈ rest, b ≤ x := fun x hx =>
        (List.pairwise_cons.mp hpw).1 x hx
      have hpwr : rest.Pairwise (· ≤ ·) := (List.pairwise_cons.mp hpw).2
      by_cases hb : b = p
      · rw [dedupAfter, if_pos hb]
        exact dedupAfter_gt_pairwise rest p
          (fun x hx => hb ▸ hrest x hx) hpwr
      · rw [dedupAfter, if_neg hb]
        have hplt : p < b := lt_of_le_of_ne hpb (fun h => hb h.symm)
        have ih := dedupAfter_gt_pairwise rest b hrest hpwr
        constructor
        · intro x hx
          rcases List.mem_cons.mp hx with h | h
          · exact h ▸ hplt
          · exact hplt.trans (ih.1 x h)
        · exact List.pairwise_cons.mpr ⟨fun x hx => ih.1 x hx, ih.2⟩

lemma dedupConsec_subset : ∀ (l : List ℕ) (x : ℕ), x ∈ dedupConsec l → x ∈ l
  | [], _, h => by simp [dedupConsec] at h
  | a :: rest, x, h => by
      rw [dedupConsec] at h
      rcases List.mem_cons.mp h with h | h
      · exact h ▸ List.mem_cons_self a rest
      · exact List.mem_cons_of_mem a (dedupAfter_subset rest a x h)

lemma dedupConsec_pairwise (l : List ℕ) (h : l.Pairwise (· ≤ ·)) :
    (dedupConsec l).Pairwise (· < ·) := by
  cases l with
  | nil => simp [dedupConsec]
  | cons a rest =>
      rw [dedupConsec]
      have ha : ∀ x ∈ rest, a ≤ x := fun x hx => (List.pairwise_cons.mp h).1 x hx
      have ih := dedupAfter_gt_pairwise rest a ha (List.pairwise_cons.mp h).2
      exact List.pairwise_cons.mpr ⟨fun x hx => ih.1 x hx, ih.2⟩

lemma qRound_mono {q r : ℚ} (h : q ≤ r) : qRound q ≤ qRound r := by
  unfold qRound
  exact Int.toNat_le_toNat (Int.floor_le_floor (add_le_add_right h _))

/-- `round(n) = n` for the natural index times inefficiency 1. -/
lemma qRound_natCast_mul_one (n : ℕ) : qRound ((n : ℚ) * 1) = n := by
  unfold qRound
  rw [mul_one, ← round_eq, round_natCast]
  exact Int.toNat_natCast n

lemma subsample_base_pairwise (A : List ℝ) (g : ℚ) (hg : 0 ≤ g) :
    ((((List.range A.length).map fun n : ℕ => qRound ((n : ℚ) * g)).takeWhile
        fun t => t < A.length)).Pairwise (· ≤ ·) := by
  apply List.Pairwise.sublist (List.takeWhile_sublist _)
  have h1 : (List.range A.length).Pairwise (fun a b : ℕ => a < b) :=
    List.pairwise_lt_range A.length
  exact List.Pairwise.map (fun n : ℕ => qRound ((n : ℚ) * g))
    (fun a b hab =>
      qRound_mono (mul_le_mul_of_nonneg_right (by exact_mod_cast hab.le) hg)) h1

lemma subsample_pairwise (A : List ℝ) (g : ℚ) (hg : 0 ≤ g) :
    (subsampleCorrelatedData A g).Pairwise (· < ·) :=
  dedupConsec_pairwise _ (subsample_base_pairwise A g hg)

lemma subsample_mem_lt (A : List ℝ) (g : ℚ) :
    ∀ t ∈ subsampleCorrelatedData A g, t < A.length := by
  intro t ht
  have h1 := dedupConsec_subset _ t ht
  have h2 := List.mem_takeWhile_imp h1
  simpa using h2

lemma subsample_length_le (A : List ℝ) (g : ℚ) (hg : 0 ≤ g) :
    (subsampleCorrelatedData A g).length ≤ A.length := by
  have hnd : (subsampleCorrelatedData A g).Nodup :=
    (subsample_pairwise A g hg).imp Nat.ne_of_lt
  have hsub : subsampleCorrelatedData A g ⊆ List.range A.length := fun t ht =>
    List.mem_range.mpr (subsample_mem_lt A g t ht)
  simpa using (hnd.subperm hsub).length_le

lemma compaction_getD (uRow : List (List ℝ)) (indices : List ℕ) (l j : ℕ)
    (hl : l < uRow.length) (hj : j < indices.length) :
    ((uRow.map fun rowl =>
        (indices.map fun t => rowl.getD t 0) ++ rowl.drop indices.length).getD l []).getD j 0
      = (uRow.getD l []).getD (indices.getD j 0) 0 := by
  rw [getD_map_of_lt _ [] [] uRow l hl]
  rw [List.getD_append _ _ 0 j (by simpa using hj)]
  rw [getD_map_of_lt _ 0 0 indices j hj]

/-- C5 (code behaviour at the failing input): with a diagonal series of
length 4 for which the external detection reports `nequil = 2` burn-in
samples, the decorrelation cell still retains the indices `[0, 1, 2,
3]` — in particular the burn-in samples 0 and 1 — because it hands the
full series, not the truncated one, to `subsampleCorrelatedData` and
never uses `nequil`. -/
theorem decorrelation_retains_burnin :
    0 < (detectW (uRowW.getD 0 [])).1 ∧
    (decorrelateState detectW uRowW 0).2.1 = [0, 1, 2, 3] := by
  constructor
  · decide
  · show subsampleCorrelatedData (uRowW.getD 0 [])
      ((detectW (uRowW.getD 0 [])).2.1) = [0, 1, 2, 3]
    have hg1 : (detectW (uRowW.getD 0 [])).2.1 = 1 := rfl
    have hlen : (uRowW.getD 0 []).length = 4 := rfl
    rw [hg1]
    unfold subsampleCorrelatedData
    rw [hlen]
    simp only [qRound_natCast_mul_one]
    decide

/-- C6: for every state, the decorrelation cell retains
`N_k = len(indices)` samples with `N_k` at most the length of the
generated series (`total_iterations`), the retained index list is
strictly increasing, and after the in-place compaction the first `N_k`
entries of every evaluation-state series `l` of the row equal the
pre-compaction values at the retained indices.  (`g ≥ 1` is the
statistical-inefficiency contract of the external
`detectEquilibration`.) -/
theorem decorrelation_counts_sound (detect : List ℝ → ℕ × ℚ × ℝ)
    (uRow : List (List ℝ)) (k : ℕ)
    (hg : 1 ≤ (detect (uRow.getD k [])).2.1) :
    (decorrelateState detect uRow k).1 ≤ (uRow.getD k []).length ∧
    (decorrelateState detect uRow k).2.1.Pairwise (· < ·) ∧
    ∀ l, l < uRow.length → ∀ j, j < (decorrelateState detect uRow k).1 →
      ((decorrelateState detect uRow k).2.2.getD l []).getD j 0 =
        (uRow.getD l []).getD ((decorrelateState detect uRow k).2.1.getD j 0) 0 := by
  have hg0 : (0 : ℚ) ≤ (detect (uRow.getD k [])).2.1 := le_trans (by norm_num) hg
  refine ⟨subsample_length_le _ _ hg0, subsample_pairwise _ _ hg0, ?_⟩
  intro l hl j hj
  exact compaction_getD uRow _ l j hl hj

theorem decorrelation_counts_sound_witness :
    (decorrelateState detectW uRowW 0).1 ≤ (uRowW.getD 0 []).length ∧
    (decorrelateState detectW uRowW 0).2.1.Pairwise (· < ·) :=
  ⟨(decorrelation_counts_sound detectW uRowW 0 (le_refl 1)).1,
   (decorrelation_counts_sound detectW uRowW 0 (le_refl 1)).2.1⟩

/-! ### C4: the production loop -/

lemma runInner_fst {M : Type} (energyFn : M → ℝ → ℝ) (kT : ℝ) :
    ∀ (lambdas : List ℝ) (ctx : Context M),
      (runInner energyFn kT lambdas ctx).1 =
        lambdas.map fun lb => energyFn ctx.micro lb / kT
  | [], _ => rfl
  | lb :: rest, ctx => by
      simp only [runInner, List.map_cons]
      rw [runInner_fst energyFn kT rest (setParameter ctx lb)]
      rfl

lemma runInner_micro {M : Type} (energyFn : M → ℝ → ℝ) (kT : ℝ) :
    ∀ (lambdas : List ℝ) (ctx : Context M),
      (runInner energyFn kT lambdas ctx).2.micro = ctx.micro
  | [], _ => rfl
  | lb :: rest, ctx => by
      simp only [runInner]
      rw [runInner_micro energyFn kT rest (setParameter ctx lb)]
      rfl

lemma blockState_shift {M : Type} (stepDyn : M → ℝ → M) (lb1 : ℝ) (output_freq : ℕ)
    (m : M) : ∀ n : ℕ,
      blockState stepDyn lb1 output_freq ((fun s => stepDyn s lb1)^[output_freq] m) n
        = blockState stepDyn lb1 output_freq m (n + 1)
  | 0 => rfl
  | n + 1 => by
      rw [blockState, blockState_shift stepDyn lb1 output_freq m n]
      rfl

lemma runProd_spec {M : Type} (stepDyn : M → ℝ → M) (energyFn : M → ℝ → ℝ) (kT : ℝ)
    (lambda_values : List ℝ) (lb1 : ℝ) (output_freq : ℕ) :
    ∀ (N : ℕ) (ctx : Context M),
      (runProd stepDyn energyFn kT lambda_values lb1 output_freq N ctx).1 =
        (List.range N).map (fun n => lambda_values.map fun lb =>
          energyFn (blockState stepDyn lb1 output_freq ctx.micro (n + 1)) lb / kT) ∧
      (runProd stepDyn energyFn kT lambda_values lb1 output_freq N ctx).2.micro =
        blockState stepDyn lb1 output_freq ctx.micro N
  | 0, ctx => ⟨rfl, rfl⟩
  | N + 1, ctx => by
      have hc2 : (stepSim stepDyn output_freq (setParameter ctx lb1)).micro
          = (fun s => stepDyn s lb1)^[output_freq] ctx.micro := rfl
      have ih := runProd_spec stepDyn energyFn kT lambda_values lb1 output_freq N
        (runInner energyFn kT lambda_values
          (stepSim stepDyn output_freq (setParameter ctx lb1))).2
      have hmicro :
          (runInner energyFn kT lambda_values
            (stepSim stepDyn output_freq (setParameter ctx lb1))).2.micro
          = (fun s => stepDyn s lb1)^[output_freq] ctx.micro := by
        rw [runInner_micro, hc2]
      rw [hmicro] at ih
      constructor
      · show (runInner energyFn kT lambda_values
            (stepSim stepDyn output_freq (setParameter ctx lb1))).1 ::
          (runProd stepDyn energyFn kT lambda_values lb1 output_freq N _).1 = _
        rw [ih.1, runInner_fst, hc2, List.range_succ_eq_map, List.map_cons, List.map_map]
        refine congrArg₂ List.cons ?_ ?_
        · rfl
        · apply List.map_congr_left
          intro n _
          simp only [Function.comp]
          rw [blockState_shift]
      · show (runProd stepDyn energyFn kT lambda_values lb1 output_freq N _).2.micro = _
        rw [ih.2, blockState_shift]

lemma runAlchemical_micro {M : Type} (stepDyn : M → ℝ → M) (energyFn : M → ℝ → ℝ)
    (kT : ℝ) (lambda_values : List ℝ) (equil_steps output_freq total_iterations : ℕ) :
    ∀ (todo : List ℝ) (ctx : Context M),
      (runAlchemical stepDyn energyFn kT lambda_values equil_steps output_freq
        total_iterations todo ctx).2.micro =
        refLoop stepDyn equil_steps output_freq total_iterations todo ctx.micro
  | [], _ => rfl
  | lb1 :: rest, ctx => by
      show (runAlchemical stepDyn energyFn kT lambda_values equil_steps output_freq
        total_iterations rest _).2.micro = _
      rw [runAlchemical_micro stepDyn energyFn kT lambda_values equil_steps output_freq
        total_iterations rest _]
      rw [refLoop]
      congr 1
      rw [(runProd_spec stepDyn energyFn kT lambda_values lb1 output_freq
        total_iterations _).2]
      rfl

lemma runAlchemical_getD {M : Type} (stepDyn : M → ℝ → M) (energyFn : M → ℝ → ℝ)
    (kT : ℝ) (lambda_values : List ℝ) (equil_steps output_freq total_iterations : ℕ) :
    ∀ (todo : List ℝ) (ctx : Context M) (k : ℕ), k < todo.length →
      (runAlchemical stepDyn energyFn kT lambda_values equil_steps output_freq
          total_iterations todo ctx).1.getD k [] =
        (List.range total_iterations).map (fun n => lambda_values.map fun lb =>
          energyFn (blockState stepDyn (todo.getD k 0) output_freq
            ((fun s => stepDyn s (todo.getD k 0))^[equil_steps]
              (refLoop stepDyn equil_steps output_freq total_iterations
                (todo.take k) ctx.micro)) (n + 1)) lb / kT)
  | [], _, k, hk => by simp at hk
  | lb1 :: rest, ctx, 0, _ => by
      show ((runProd stepDyn energyFn kT lambda_values lb1 output_freq total_iterations
        (stepSim stepDyn equil_steps (setParameter ctx lb1))).1 ::
          (runAlchemical stepDyn energyFn kT lambda_values equil_steps output_freq
            total_iterations rest _).1).getD 0 [] = _
      rw [List.getD_cons_zero]
      rw [(runProd_spec stepDyn energyFn kT lambda_values lb1 output_freq
        total_iterations _).1]
      rfl
  | lb1 :: rest, ctx, k + 1, hk => by
      show ((runProd stepDyn energyFn kT lambda_values lb1 output_freq total_iterations
        (stepSim stepDyn equil_steps (setParameter ctx lb1))).1 ::
          (runAlchemical stepDyn energyFn kT lambda_values equil_steps output_freq
            total_iterations rest _).1).getD (k + 1) [] = _
      rw [List.getD_cons_succ]
      rw [runAlchemical_getD stepDyn energyFn kT lambda_values equil_steps output_freq
        total_iterations rest _ k (Nat.lt_of_succ_lt_succ hk)]
      rw [(runProd_spec stepDyn energyFn kT lambda_values lb1 output_freq
        total_iterations _).2]
      rw [List.getD_cons_succ]
      have htake : (lb1 :: rest).take (k + 1) = lb1 :: rest.take k := rfl
      rw [htake, refLoop]
      rfl

lemma getD_range (n m : ℕ) (h : m < n) : (List.range n).getD m 0 = m := by
  rw [List.getD_eq_getElem _ _ (by simpa using h)]
  simp

/-- C4: entry `u[k, l, n]` of the reduced-potential matrix produced by
the production loop equals the pure energy function evaluated at
`lambda_values[l]` on one fixed microstate `refSample … k n` — the
state reached by stepping the dynamics under `lambda_values[k]` alone
(`refSample` is defined from the dynamics only).  Hence all `K` entries
of `u[k, ·, n]` are evaluated on the same microstate, the control
parameter is reset to `lambda_values[k]` before every stepping block,
and the inner evaluation loop does not alter the trajectory. -/
theorem production_loop_pure_eval {M : Type} (stepDyn : M → ℝ → M)
    (energyFn : M → ℝ → ℝ) (kT : ℝ) (lambda_values : List ℝ)
    (equil_steps output_freq total_iterations : ℕ) (ctx0 : Context M) (k n l : ℕ)
    (hk : k < lambda_values.length) (hn : n < total_iterations)
    (hl : l < lambda_values.length) :
    (((runAlchemical stepDyn energyFn kT lambda_values equil_steps output_freq
          total_iterations lambda_values ctx0).1.getD k []).getD n []).getD l 0 =
      energyFn (refSample stepDyn equil_steps output_freq total_iterations
        lambda_values ctx0.micro k n) (lambda_values.getD l 0) / kT := by
  rw [runAlchemical_getD stepDyn energyFn kT lambda_values equil_steps output_freq
    total_iterations lambda_values ctx0 k hk]
  rw [getD_map_of_lt _ 0 [] (List.range total_iterations) n (by simpa using hn)]
  rw [getD_range total_iterations n hn]
  rw [getD_map_of_lt _ 0 0 lambda_values l hl]
  rfl

theorem production_loop_pure_eval_witness :
    (((runAlchemical stepW energyW 1 [0, 1] 1 1 1 [0, 1] ⟨0, 0⟩).1.getD 1 []).getD
        0 []).getD 0 0 =
      energyW (refSample stepW 1 1 1 [0, 1] 0 1 0) (([0, 1] : List ℝ).getD 0 0) / 1 :=
  production_loop_pure_eval stepW energyW 1 [0, 1] 1 1 1 ⟨0, 0⟩ 1 0 0 (by decide)
    (by decide) (by decide)

/-! ### C1: combined soft-core + intramolecular energy at lambda = 1 -/

lemma ppSigma_intermol (nonbonded : NonbondedForce) (molecule solvent : List ℕ)
    (lam : ℝ) (i : ℕ) (h : i < nonbonded.particles.length) :
    ppSigma (intermol_LJ nonbonded molecule solvent lam) i = sigmaAt nonbonded i := by
  show ((nonbonded.particles.map fun p => (p.sigma, p.epsilon)).getD i (0, 0)).1 = _
  rw [getD_map_of_lt _ default (0, 0) nonbonded.particles i h]
  rfl

lemma ppEps_intermol (nonbonded : NonbondedForce) (molecule solvent : List ℕ)
    (lam : ℝ) (i : ℕ) (h : i < nonbonded.particles.length) :
    ppEps (intermol_LJ nonbonded molecule solvent lam) i = epsAt nonbonded i := by
  show ((nonbonded.particles.map fun p => (p.sigma, p.epsilon)).getD i (0, 0)).2 = _
  rw [getD_map_of_lt _ default (0, 0) nonbonded.particles i h]
  rfl

lemma sigmaAt_pos (nonbonded : NonbondedForce) (i : ℕ)
    (hσ : ∀ p ∈ nonbonded.particles, 0 < p.sigma)
    (h : i < nonbonded.particles.length) : 0 < sigmaAt nonbonded i :=
  hσ _ (getD_mem nonbonded.particles i default h)

/-- C1 (amended): with every particle sigma positive and every pair
distance positive, the sum of the soft-core intermolecular
`CustomNonbondedForce` energy at `lambda_sterics = 1` and the
intramolecular `CustomBondForce` energy equals the portion of the
original `NonbondedForce` Lennard-Jones energy that `add_LJ_scaling`
migrates: the non-excepted molecule-solvent pair terms plus the
molecule-molecule exception terms.  (It does not equal the full
original Lennard-Jones energy: solvent-solvent terms remain in the base
force, and non-excepted molecule-molecule pairs and molecule-solvent
exception terms are migrated nowhere.) -/
theorem lj_scaling_combined_energy (nonbonded : NonbondedForce)
    (molecule solvent : List ℕ) (lambda_value : ℝ) (d : ℕ → ℕ → ℝ)
    (hσ : ∀ p ∈ nonbonded.particles, 0 < p.sigma)
    (hd : ∀ i j, 0 < d i j)
    (hm : ∀ i ∈ molecule, i < nonbonded.particles.length)
    (hs : ∀ j ∈ solvent, j < nonbonded.particles.length) :
    customNBEnergy (intermol_LJ nonbonded molecule solvent lambda_value) 1 d
      + customBondEnergy (intramol_LJ nonbonded molecule) d
      = migratedLJEnergy nonbonded molecule solvent d := by
  have hNB : customNBEnergy (intermol_LJ nonbonded molecule solvent lambda_value) 1 d =
      ((molecule.product solvent).map fun p =>
        if pairListed (nonbonded.exceptions.map fun e => (e.i, e.j)) p.1 p.2 then 0
        else LJ (mixSigma (sigmaAt nonbonded p.1) (sigmaAt nonbonded p.2))
          (mixEps (epsAt nonbonded p.1) (epsAt nonbonded p.2)) (d p.1 p.2)).sum := by
    show ((molecule.product solvent).map fun p =>
        if pairListed (nonbonded.exceptions.map fun e => (e.i, e.j)) p.1 p.2 then 0
        else softcoreExpression 1
          (mixSigma (ppSigma (intermol_LJ nonbonded molecule solvent lambda_value) p.1)
            (ppSigma (intermol_LJ nonbonded molecule solvent lambda_value) p.2))
          (mixEps (ppEps (intermol_LJ nonbonded molecule solvent lambda_value) p.1)
            (ppEps (intermol_LJ nonbonded molecule solvent lambda_value) p.2))
          (d p.1 p.2)).sum = _
    congr 1
    apply List.map_congr_left
    rintro ⟨a, b⟩ hp
    obtain ⟨ha, hb⟩ := List.mem_product.mp hp
    have haL : a < nonbonded.particles.length := hm a ha
    have hbL : b < nonbonded.particles.length := hs b hb
    cases hpl : pairListed (nonbonded.exceptions.map fun e => (e.i, e.j)) a b with
    | true => simp [hpl]
    | false =>
        simp only [hpl, Bool.false_eq_true, if_false]
        rw [ppSigma_intermol _ _ _ _ _ haL, ppSigma_intermol _ _ _ _ _ hbL,
          ppEps_intermol _ _ _ _ _ haL, ppEps_intermol _ _ _ _ _ hbL]
        apply softcoreExpression_lambda_one
        · have h1 := sigmaAt_pos nonbonded a hσ haL
          have h2 := sigmaAt_pos nonbonded b hσ hbL
          unfold mixSigma
          linarith
        · exact hd a b
  have hBond : customBondEnergy (intramol_LJ nonbonded molecule) d =
      ((nonbonded.exceptions.filter fun e =>
          decide (e.i ∈ molecule) && decide (e.j ∈ molecule)).map
        fun e => LJ e.sigma e.epsilon (d e.i e.j)).sum := by
    show ((((nonbonded.exceptions.filter fun e =>
        decide (e.i ∈ molecule) && decide (e.j ∈ molecule)).map
          fun e => (e.i, e.j, e.sigma, e.epsilon)).map
        fun b => LJ b.2.2.1 b.2.2.2 (d b.1 b.2.1)).sum) = _
    rw [List.map_map]
    rfl
  rw [hNB, hBond, migratedLJEnergy]

theorem lj_scaling_combined_energy_witness :
    customNBEnergy (intermol_LJ nbPair [0] [1] 0) 1 dTwo
      + customBondEnergy (intramol_LJ nbPair [0]) dTwo
      = migratedLJEnergy nbPair [0] [1] dTwo :=
  lj_scaling_combined_energy nbPair [0] [1] 0 dTwo
    (by
      intro p hp
      simp only [nbPair] at hp
      fin_cases hp <;> norm_num)
    (fun _ _ => by norm_num [dTwo])
    (by decide) (by decide)

/-- C1 counterexample: for a three-particle configuration (one solute
atom, two solvent atoms, all at distance 2, unit parameters, no
exceptions), the soft-core-plus-intramolecular sum at
`lambda_sterics = 1` does not equal the Lennard-Jones energy of the
original unmodified `NonbondedForce`: the solvent-solvent pair term is
missing from the sum. -/
theorem lj_scaling_not_full_lj :
    customNBEnergy (intermol_LJ nbTriple [0] [1, 2] 0) 1 dTwo
      + customBondEnergy (intramol_LJ nbTriple [0]) dTwo
      ≠ nbLJEnergy nbTriple dTwo := by
  have hms : mixSigma 1 1 = 1 := by norm_num [mixSigma]
  have hme : mixEps 1 1 = 1 := by simp [mixEps]
  have hsc : softcoreExpression 1 (mixSigma 1 1) (mixEps 1 1) 2 = LJ 1 1 2 := by
    rw [hms, hme]
    exact softcoreExpression_lambda_one 1 1 2 one_pos two_pos
  have h1 : customNBEnergy (intermol_LJ nbTriple [0] [1, 2] 0) 1 dTwo
      = softcoreExpression 1 (mixSigma 1 1) (mixEps 1 1) 2
        + (softcoreExpression 1 (mixSigma 1 1) (mixEps 1 1) 2 + 0) := rfl
  have h2 : customBondEnergy (intramol_LJ nbTriple [0]) dTwo = 0 := rfl
  have h3 : nbLJEnergy nbTriple dTwo
      = (LJ (mixSigma 1 1) (mixEps 1 1) 2 + (LJ (mixSigma 1 1) (mixEps 1 1) 2
          + (LJ (mixSigma 1 1) (mixEps 1 1) 2 + 0))) + 0 := rfl
  rw [h1, h2, h3, hsc, hms, hme]
  have hLJ : LJ 1 1 2 = -(63 / 1024) := by norm_num [LJ]
  rw [hLJ]
  norm_num

/-! ### C2: linear electrostatic scaling -/

lemma particle_offsets_filter_not_mem (nonbonded : NonbondedForce)
    (molecule : List ℕ) (i : ℕ) (h : i ∉ molecule) :
    ((molecule.map fun atom_i =>
        (⟨"lambda_electrostatics", atom_i,
          ((nonbonded.particles.getD atom_i default).charge), 0, 0⟩ : ParticleOffset)).filter
      fun o => o.particle == i && o.parameter == "lambda_electrostatics") = [] := by
  induction molecule with
  | nil => rfl
  | cons a rest ih =>
      have hia : ¬(a = i) := fun hai => h (hai ▸ List.mem_cons_self a rest)
      have hcond : ((⟨"lambda_electrostatics", a,
          ((nonbonded.particles.getD a default).charge), 0, 0⟩ : ParticleOffset).particle == i
            && (⟨"lambda_electrostatics", a,
          ((nonbonded.particles.getD a default).charge), 0, 0⟩ : ParticleOffset).parameter
              == "lambda_electrostatics") = false := by
        simp [hia]
      rw [List.map_cons, List.filter_cons, hcond]
      simp only [Bool.false_eq_true, if_false]
      exact ih (fun hr => h (List.mem_cons_of_mem a hr))

lemma particle_offsets_filter_mem (nonbonded : NonbondedForce)
    (molecule : List ℕ) (i : ℕ) (hnd : molecule.Nodup) (h : i ∈ molecule) :
    ((molecule.map fun atom_i =>
        (⟨"lambda_electrostatics", atom_i,
          ((nonbonded.particles.getD atom_i default).charge), 0, 0⟩ : ParticleOffset)).filter
      fun o => o.particle == i && o.parameter == "lambda_electrostatics")
      = [⟨"lambda_electrostatics", i,
          ((nonbonded.particles.getD i default).charge), 0, 0⟩] := by
  induction molecule with
  | nil => cases h
  | cons a rest ih =>
      rw [List.map_cons, List.filter_cons]
      rcases List.mem_cons.mp h with rfl | hi
      · have hcond : ((⟨"lambda_electrostatics", i,
            ((nonbonded.particles.getD i default).charge), 0, 0⟩ : ParticleOffset).particle == i
              && (⟨"lambda_electrostatics", i,
            ((nonbonded.particles.getD i default).charge), 0, 0⟩ : ParticleOffset).parameter
                == "lambda_electrostatics") = true := by
          simp
        rw [hcond]
        simp only [if_true]
        rw [particle_offsets_filter_not_mem nonbonded rest i
          (List.nodup_cons.mp hnd).1]
      · have hai : ¬(a = i) := fun hae =>
          (List.nodup_cons.mp hnd).1 (hae ▸ hi)
        have hcond : ((⟨"lambda_electrostatics", a,
            ((nonbonded.particles.getD a default).charge), 0, 0⟩ : ParticleOffset).particle == i
              && (⟨"lambda_electrostatics", a,
            ((nonbonded.particles.getD a default).charge), 0, 0⟩ : ParticleOffset).parameter
                == "lambda_electrostatics") = false := by
          simp [hai]
        rw [hcond]
        simp only [Bool.false_eq_true, if_false]
        exact ih (List.nodup_cons.mp hnd).2 hi

lemma elecExceptionOffsets_ge (molecule : List ℕ) :
    ∀ (l : List ExceptionParams) (s : ℕ) (o : ExceptionOffset),
      o ∈ elecExceptionOffsets molecule s l → s ≤ o.exception
  | [], _, _, h => by simp [elecExceptionOffsets] at h
  | e :: rest, s, o, h => by
      rw [elecExceptionOffsets] at h
      by_cases hc : e.i ∈ molecule ∧ e.j ∈ molecule
      · rw [if_pos hc] at h
        rcases List.mem_cons.mp h with rfl | hr
        · exact le_refl s
        · exact (Nat.le_succ s).trans (elecExceptionOffsets_ge molecule rest (s + 1) o hr)
      · rw [if_neg hc] at h
        exact (Nat.le_succ s).trans (elecExceptionOffsets_ge molecule rest (s + 1) o h)

lemma elecExceptionOffsets_filter (molecule : List ℕ) :
    ∀ (l : List ExceptionParams) (s t : ℕ),
      ((elecExceptionOffsets molecule s l).filter fun o =>
          o.exception == s + t && o.parameter == "lambda_electrostatics")
        = if t < l.length ∧ (l.getD t default).i ∈ molecule ∧
            (l.getD t default).j ∈ molecule
          then [⟨"lambda_electrostatics", s + t, (l.getD t default).chargeprod, 0, 0⟩]
          else []
  | [], s, t => by simp [elecExceptionOffsets]
  | e :: rest, s, t => by
      have htail0 : ((elecExceptionOffsets molecule (s + 1) rest).filter fun o =>
          o.exception == s + 0 && o.parameter == "lambda_electrostatics") = [] := by
        apply List.filter_eq_nil_iff.mpr
        intro o ho
        have hge := elecExceptionOffsets_ge molecule rest (s + 1) o ho
        have hne : (o.exception == s) = false := beq_eq_false_iff_ne.mpr (by omega)
        simp [Nat.add_zero, hne]
      rw [elecExceptionOffsets]
      by_cases hc : e.i ∈ molecule ∧ e.j ∈ molecule
      · rw [if_pos hc]
        cases t with
        | zero =>
            rw [List.filter_cons]
            have hcond : ((⟨"lambda_electrostatics", s, e.chargeprod, 0, 0⟩ :
                ExceptionOffset).exception == s + 0
                  && (⟨"lambda_electrostatics", s, e.chargeprod, 0, 0⟩ :
                ExceptionOffset).parameter == "lambda_electrostatics") = true := by
              simp
            rw [hcond]
            simp only [if_true, htail0]
            rw [if_pos ⟨Nat.succ_pos rest.length, hc⟩]
            simp
        | succ t =>
            rw [List.filter_cons]
            have hcond : ((⟨"lambda_electrostatics", s, e.chargeprod, 0, 0⟩ :
                ExceptionOffset).exception == s + (t + 1)
                  && (⟨"lambda_electrostatics", s, e.chargeprod, 0, 0⟩ :
                ExceptionOffset).parameter == "lambda_electrostatics") = false := by
              have hb : ((⟨"lambda_electrostatics", s, e.chargeprod, 0, 0⟩ :
                  ExceptionOffset).exception == s + (t + 1)) = false :=
                beq_eq_false_iff_ne.mpr (show s ≠ s + (t + 1) by omega)
              simp [hb]
            rw [hcond]
            simp only [Bool.false_eq_true, if_false]
            rw [show s + (t + 1) = (s + 1) + t by omega]
            rw [elecExceptionOffsets_filter molecule rest (s + 1) t]
            simp only [List.getD_cons_succ, List.length_cons, Nat.succ_lt_succ_iff]
      · rw [if_neg hc]
        cases t with
        | zero =>
            rw [htail0]
            rw [if_neg (fun hcontra => hc hcontra.2)]
        | succ t =>
            rw [show s + (t + 1) = (s + 1) + t by omega]
            rw [elecExceptionOffsets_filter molecule rest (s + 1) t]
            simp only [List.getD_cons_succ, List.length_cons, Nat.succ_lt_succ_iff]

lemma elecExceptionOffsets_filter_zero (molecule : List ℕ)
    (l : List ExceptionParams) (k : ℕ) :
    ((elecExceptionOffsets molecule 0 l).filter fun o =>
        o.exception == k && o.parameter == "lambda_electrostatics")
      = if k < l.length ∧ (l.getD k default).i ∈ molecule ∧
          (l.getD k default).j ∈ molecule
        then [⟨"lambda_electrostatics", k, (l.getD k default).chargeprod, 0, 0⟩]
        else [] := by
  have h := elecExceptionOffsets_filter molecule l 0 k
  simpa using h

lemma effectiveCharge_after (nonbonded : NonbondedForce) (molecule : List ℕ)
    (lam0 lam : ℝ) (hnd : molecule.Nodup) (hpo : nonbonded.particleOffsets = [])
    (i : ℕ) (him : i ∈ molecule) (hlen : i < nonbonded.particles.length) :
    effectiveCharge (turn_off_nonbonded_nb (add_lambda_elec_nb nonbonded molecule lam0)
        molecule) lam i
      = lam * chargeAt nonbonded i := by
  have hbase : chargeAt (turn_off_nonbonded_nb (add_lambda_elec_nb nonbonded molecule lam0)
      molecule) i = 0 := by
    show ((mapWithIndex (fun atom_i p =>
        if atom_i ∈ molecule then { p with charge := 0, epsilon := 0 } else p)
        0 nonbonded.particles).getD i default).charge = 0
    rw [getD_mapWithIndex _ default nonbonded.particles 0 i hlen]
    simp [him]
  have hoff : (turn_off_nonbonded_nb (add_lambda_elec_nb nonbonded molecule lam0)
      molecule).particleOffsets
      = molecule.map fun atom_i =>
          (⟨"lambda_electrostatics", atom_i,
            ((nonbonded.particles.getD atom_i default).charge), 0, 0⟩ : ParticleOffset) := by
    show nonbonded.particleOffsets ++ _ = _
    rw [hpo, List.nil_append]
  unfold effectiveCharge
  rw [hbase, hoff, particle_offsets_filter_mem nonbonded molecule i hnd him]
  simp [chargeAt]

lemma effectiveChargeprod_after (nonbonded : NonbondedForce) (molecule : List ℕ)
    (lam0 lam : ℝ) (heo : nonbonded.exceptionOffsets = [])
    (k : ℕ) (hk : k < nonbonded.exceptions.length)
    (hi : (nonbonded.exceptions.getD k default).i ∈ molecule)
    (hj : (nonbonded.exceptions.getD k default).j ∈ molecule) :
    effectiveChargeprod (turn_off_nonbonded_nb (add_lambda_elec_nb nonbonded molecule lam0)
        molecule) lam k
      = lam * (nonbonded.exceptions.getD k default).chargeprod := by
  have hbase : ((turn_off_nonbonded_nb (add_lambda_elec_nb nonbonded molecule lam0)
      molecule).exceptions.getD k default).chargeprod = 0 := by
    show (((nonbonded.exceptions.map fun e =>
        if e.i ∈ molecule ∧ e.j ∈ molecule then { e with chargeprod := 0, epsilon := 0 }
        else e).getD k default)).chargeprod = 0
    rw [getD_map_of_lt _ default default nonbonded.exceptions k hk]
    show (if (nonbonded.exceptions.getD k default).i ∈ molecule ∧
          (nonbonded.exceptions.getD k default).j ∈ molecule
        then { nonbonded.exceptions.getD k default with chargeprod := 0, epsilon := 0 }
        else nonbonded.exceptions.getD k default).chargeprod = 0
    rw [if_pos ⟨hi, hj⟩]
  have hoff : (turn_off_nonbonded_nb (add_lambda_elec_nb nonbonded molecule lam0)
      molecule).exceptionOffsets
      = elecExceptionOffsets molecule 0 nonbonded.exceptions := by
    show nonbonded.exceptionOffsets ++ _ = _
    rw [heo, List.nil_append]
  unfold effectiveChargeprod
  rw [hbase, hoff, elecExceptionOffsets_filter_zero molecule nonbonded.exceptions k]
  rw [if_pos ⟨hk, hi, hj⟩]
  simp

/-- C2: after `add_lambda_elec` followed by `turn_off_nonbonded` on a
system with a `NonbondedForce`, the effective charge of every molecule
atom (base charge plus `lambda_electrostatics` times the registered
offset) and the effective chargeprod of every molecule-molecule
exception equal `lambda` times their original values; at
`lambda_electrostatics = 1` they equal the original pre-modification
values and at `lambda_electrostatics = 0` they vanish. -/
theorem elec_scaling_endpoints (nonbonded : NonbondedForce) (molecule : List ℕ)
    (lam0 lam : ℝ) (hnd : molecule.Nodup)
    (hpo : nonbonded.particleOffsets = []) (heo : nonbonded.exceptionOffsets = []) :
    (add_lambda_elec ⟨[Force.nonbonded nonbonded]⟩ molecule lam0 =
        some ⟨[Force.nonbonded (add_lambda_elec_nb nonbonded molecule lam0)]⟩ ∧
      turn_off_nonbonded ⟨[Force.nonbonded (add_lambda_elec_nb nonbonded molecule lam0)]⟩
          molecule =
        some ⟨[Force.nonbonded (turn_off_nonbonded_nb
          (add_lambda_elec_nb nonbonded molecule lam0) molecule)]⟩) ∧
    (∀ i ∈ molecule, i < nonbonded.particles.length →
      effectiveCharge (turn_off_nonbonded_nb (add_lambda_elec_nb nonbonded molecule lam0)
          molecule) lam i
        = lam * chargeAt nonbonded i) ∧
    (∀ i ∈ molecule, i < nonbonded.particles.length →
      effectiveCharge (turn_off_nonbonded_nb (add_lambda_elec_nb nonbonded molecule lam0)
          molecule) 1 i = chargeAt nonbonded i ∧
      effectiveCharge (turn_off_nonbonded_nb (add_lambda_elec_nb nonbonded molecule lam0)
          molecule) 0 i = 0) ∧
    (∀ k, k < nonbonded.exceptions.length →
      (nonbonded.exceptions.getD k default).i ∈ molecule →
      (nonbonded.exceptions.getD k default).j ∈ molecule →
      effectiveChargeprod (turn_off_nonbonded_nb
          (add_lambda_elec_nb nonbonded molecule lam0) molecule) lam k
        = lam * (nonbonded.exceptions.getD k default).chargeprod) ∧
    (∀ k, k < nonbonded.exceptions.length →
      (nonbonded.exceptions.getD k default).i ∈ molecule →
      (nonbonded.exceptions.getD k default).j ∈ molecule →
      effectiveChargeprod (turn_off_nonbonded_nb
          (add_lambda_elec_nb nonbonded molecule lam0) molecule) 1 k
        = (nonbonded.exceptions.getD k default).chargeprod ∧
      effectiveChargeprod (turn_off_nonbonded_nb
          (add_lambda_elec_nb nonbonded molecule lam0) molecule) 0 k = 0) := by
  refine ⟨⟨rfl, rfl⟩, ?_, ?_, ?_, ?_⟩
  · intro i him hlen
    exact effectiveCharge_after nonbonded molecule lam0 lam hnd hpo i him hlen
  · intro i him hlen
    constructor
    · rw [effectiveCharge_after nonbonded molecule lam0 1 hnd hpo i him hlen, one_mul]
    · rw [effectiveCharge_after nonbonded molecule lam0 0 hnd hpo i him hlen, zero_mul]
  · intro k hk hi hj
    exact effectiveChargeprod_after nonbonded molecule lam0 lam heo k hk hi hj
  · intro k hk hi hj
    constructor
    · rw [effectiveChargeprod_after nonbonded molecule lam0 1 heo k hk hi hj, one_mul]
    · rw [effectiveChargeprod_after nonbonded molecule lam0 0 heo k hk hi hj, zero_mul]

theorem elec_scaling_endpoints_witness :
    effectiveCharge (turn_off_nonbonded_nb (add_lambda_elec_nb nbElec [0, 1] 0) [0, 1]) 1 0
        = chargeAt nbElec 0 ∧
    effectiveChargeprod (turn_off_nonbonded_nb (add_lambda_elec_nb nbElec [0, 1] 0) [0, 1])
        0 0 = 0 :=
  ⟨((elec_scaling_endpoints nbElec [0, 1] 0 1 (by decide) rfl rfl).2.2.1 0
      (by decide) (by decide)).1,
   ((elec_scaling_endpoints nbElec [0, 1] 0 1 (by decide) rfl rfl).2.2.2.2 0
      (by decide) (by decide) (by decide)).2⟩

end HFE
